import Mathlib

/-!
Verification of the policy evaluation engine of ec-cli.

The engine's implementation (`internal/evaluator/conftest_evaluator.go`) is
not part of the sources available here; only its unit tests
(`internal/evaluator/conftest_evaluator_test.go`) and callers are.  The
definitions below are therefore modelled from the specification's
description of the engine (spec.md §3, §4.3–§4.7), with the behaviour at
every point that the repository's own tests pin down made to agree with
those tests.
-/

namespace EC

/-- Modelled from the spec: a scalar dynamic value carried inside a Go
`[]any` metadata entry; the engine only ever distinguishes string elements
from non-string ones. -/
inductive Scalar : Type where
  | str (s : String)
  | bool (b : Bool)
  | int (n : Int)
deriving DecidableEq

/-- Modelled from the spec: result metadata carries "arbitrary values
(string vs. list-of-any vs. bool)" (spec §9); we embed the dynamic Go
values that appear in the engine as a tagged variant.  `listAny` models a
Go `[]any` (holding the scalar shapes the engine handles), `listStr` a Go
`[]string` — the engine distinguishes the two when normalizing
`collections`. -/
inductive Value : Type where
  | str (s : String)
  | bool (b : Bool)
  | int (n : Int)
  | listAny (l : List Scalar)
  | listStr (l : List String)
deriving DecidableEq

/-- Modelled from the spec: `ResultMetadata` is a "mapping from string to
arbitrary values" (spec §3); embedded as an association list. -/
abbrev Metadata : Type := List (String × Value)

/-- Lookup of a metadata key (first binding wins, as in a Go map where keys
are unique). -/
def mdLookup : Metadata → String → Option Value
  | [], _ => none
  | (k, v) :: rest, key => if k = key then some v else mdLookup rest key

/-- Removal of a metadata key, as Go's `delete(m, k)`. -/
def mdErase (md : Metadata) (key : String) : Metadata :=
  md.filter (fun p => p.1 ≠ key)

/-- Update of a metadata key, as Go's `m[k] = v`. -/
def mdSet (md : Metadata) (key : String) (v : Value) : Metadata :=
  (key, v) :: mdErase md key

/-- Modelled from the spec: `Result: { message, metadata }` (spec §3). -/
structure Result : Type where
  message : String := ""
  metadata : Metadata := []
deriving DecidableEq

/-- Modelled from the spec: the runner's raw check result (spec §6.2); the
runner reports successes as a count, the other buckets as result lists. -/
structure OutputCheckResult : Type where
  failures : List Result := []
  warnings : List Result := []
  successes : Nat := 0
  skipped : List Result := []
  exceptions : List Result := []
deriving DecidableEq

/-- Modelled from the spec: the engine's `CheckResult`, "a named bucket
grouping failures, warnings, successes, skipped, exceptions — each an
ordered sequence of Result" (spec §3). -/
structure CheckResult : Type where
  failures : List Result := []
  warnings : List Result := []
  successes : List Result := []
  skipped : List Result := []
  exceptions : List Result := []
deriving DecidableEq

/-- Modelled from the spec: `PolicyConfiguration` with `include`, `exclude`
and the legacy `collections` list (spec §3). -/
structure Config : Type where
  includeList : List String := []
  excludeList : List String := []
  collections : List String := []
deriving DecidableEq

/-- Splits a character list on a separator; like Go's `strings.Split`, it
always yields at least one (possibly empty) component. -/
def splitOnChar (sep : Char) : List Char → List (List Char)
  | [] => [[]]
  | c :: rest =>
    if c = sep then
      [] :: splitOnChar sep rest
    else
      match splitOnChar sep rest with
      | [] => [[c]]
      | comp :: comps => (c :: comp) :: comps

/-- Splits a character list at the first occurrence of a separator,
returning the part before it and, when the separator occurs, the part
after it. -/
def splitFirst (sep : Char) : List Char → List Char × Option (List Char)
  | [] => ([], none)
  | c :: rest =>
    if c = sep then
      ([], some rest)
    else
      let (a, b) := splitFirst sep rest
      (c :: a, b)

/-- Modelled from the spec: pattern scoring on the raw characters of a
pattern (spec §4.3): the part after the first `:` is the term and adds
100; the name part is split on `.`; a wildcard package contributes 1 and a
named package 10; a second component that is a specific rule name (neither
empty nor `*`) adds 100. -/
def scoreChars (pattern : List Char) : Nat :=
  let (namePart, termPart) := splitFirst ':' pattern
  let termScore := if termPart.isSome then 100 else 0
  let parts := splitOnChar '.' namePart
  let pkgScore := if parts.headD [] = ['*'] then 1 else 10
  let ruleScore :=
    match parts with
    | _ :: r :: _ => if r = [] ∨ r = ['*'] then 0 else 100
    | _ => 0
  pkgScore + ruleScore + termScore

/-- Modelled from the spec: the scoring function over include/exclude
patterns (spec §4.3, "Pattern scoring"). -/
def score (pattern : String) : Nat :=
  scoreChars pattern.data

/-- Reads a metadata key as a string; any missing key or non-string value
yields the empty string, mirroring a Go type assertion with zero value. -/
def getString (md : Metadata) (key : String) : String :=
  match mdLookup md key with
  | some (Value.str s) => s
  | _ => ""

/-- Modelled from the spec: token expansion over the characters of the
`code` and `term` of a result (spec §4.3, "Token expansion"): the last two
dotted components of the code give `pkg` and `name`; a code with fewer
than two components contributes nothing beyond the final `"*"`; a
non-empty term repeats the package tokens with `:term` appended. -/
def makeMatchersChars (code term : List Char) : List (List Char) :=
  let parts := splitOnChar '.' code
  let base : List (List Char) :=
    match parts.reverse with
    | name :: pkg :: _ => [pkg, pkg ++ ['.', '*'], pkg ++ '.' :: name]
    | _ => []
  let withTerm :=
    if term = [] then base
    else base ++ base.map (fun m => m ++ ':' :: term)
  withTerm ++ [['*']]

/-- Modelled from the spec: `makeMatchers` expands a result into its
ordered match tokens from the `code` and `term` metadata (spec §4.3). -/
def makeMatchers (r : Result) : List String :=
  (makeMatchersChars (getString r.metadata "code").data
      (getString r.metadata "term").data).map String.mk

/-- Extracts the string elements of a `collections`-shaped metadata value:
a `[]string` is taken as-is, the string elements of a `[]any` are taken,
anything else yields nothing. -/
def valueStrings : Value → List String
  | Value.listStr l => l
  | Value.listAny l =>
    l.filterMap (fun v => match v with | Scalar.str s => some s | _ => none)
  | _ => []

/-- Modelled from the spec: the collections attached to a result (spec
§4.3, "Collections attached to the result expand separately"). -/
def extractCollections (md : Metadata) : List String :=
  match mdLookup md "collections" with
  | some v => valueStrings v
  | none => []

/-- Modelled from the spec: the full token set a result is matched by —
the `makeMatchers` expansion plus one `"@c"` token per collection `c`
(spec §4.3). -/
def matchersOf (r : Result) : List String :=
  makeMatchers r ++ (extractCollections r.metadata).map (fun c => "@" ++ c)

/-- Highest score among the patterns that occur in the given token set;
zero when none matches. -/
def maxScore (patterns tokens : List String) : Nat :=
  (patterns.filter (fun p => tokens.contains p)).foldl
    (fun acc p => max acc (score p)) 0

/-- Modelled from the spec: the include/exclude decision — "a result is
kept iff, among patterns whose token is matched by the result's expansion,
the highest-scoring include strictly outscores the highest-scoring
exclude" (spec §4.3, "Decision"). -/
def isResultIncluded (includes excludes : List String) (r : Result) : Bool :=
  maxScore includes (matchersOf r) > maxScore excludes (matchersOf r)

/-- Modelled from the spec: the effective include patterns of a
configuration — entries of the legacy `collections` list are rewritten to
`"@<tag>"` include patterns, and absence of any include is treated as
include `"*"` (spec §4.3). -/
def effectiveInclude (cfg : Config) : List String :=
  let inc := cfg.includeList ++ cfg.collections.map (fun t => "@" ++ t)
  if inc.isEmpty then ["*"] else inc

/-- Numeric value of a decimal digit character, when it is one. -/
def digitVal (c : Char) : Option Nat :=
  if c.isDigit then some (c.toNat - 48) else none

/-- Modelled from the spec: parsing of an RFC 3339 `effective_on`
timestamp, restricted to the UTC `"YYYY-MM-DDThh:mm:ssZ"` form every
timestamp in this repository uses; the result is a single natural number
ordered like the timestamps (positional composition of the fields). -/
def parseTimestampChars : List Char → Option Nat
  | [y1, y2, y3, y4, '-', mo1, mo2, '-', d1, d2, 'T',
     h1, h2, ':', mi1, mi2, ':', s1, s2, 'Z'] => do
    let y1v ← digitVal y1
    let y2v ← digitVal y2
    let y3v ← digitVal y3
    let y4v ← digitVal y4
    let mo1v ← digitVal mo1
    let mo2v ← digitVal mo2
    let d1v ← digitVal d1
    let d2v ← digitVal d2
    let h1v ← digitVal h1
    let h2v ← digitVal h2
    let mi1v ← digitVal mi1
    let mi2v ← digitVal mi2
    let s1v ← digitVal s1
    let s2v ← digitVal s2
    let year := 1000 * y1v + 100 * y2v + 10 * y3v + y4v
    let dateKey := ((((year * 100 + 10 * mo1v + mo2v) * 100 + 10 * d1v + d2v)
      * 100 + 10 * h1v + h2v) * 100 + 10 * mi1v + mi2v) * 100 + 10 * s1v + s2v
    pure dateKey
  | _ => none

/-- Modelled from the spec: timestamp parsing at the string level. -/
def parseTimestamp (s : String) : Option Nat :=
  parseTimestampChars s.data

/-- Modelled from the spec: a failure is still effective (stays a failure)
unless its `effective_on` metadata is a string that parses as a timestamp
strictly after the effective time; a missing, non-string, unparseable or
past `effective_on` leaves the failure effective (spec §4.4). -/
def isResultEffective (effectiveTime : Nat) (r : Result) : Bool :=
  match mdLookup r.metadata "effective_on" with
  | some (Value.str s) =>
    match parseTimestamp s with
    | some t => decide (t ≤ effectiveTime)
    | none => true
  | _ => true

/-- Modelled from the spec: the time gate — failures whose `effective_on`
is in the future are demoted to the warnings bucket, appended after the
pre-existing warnings in their original order; all other buckets are left
alone (spec §4.4). -/
def timeGate (effectiveTime : Nat) (cr : CheckResult) : CheckResult :=
  { cr with
    failures := cr.failures.filter (isResultEffective effectiveTime)
    warnings := cr.warnings ++
      cr.failures.filter (fun r => ! isResultEffective effectiveTime r) }

/-- Modelled from the spec: `RuleDescriptor` (spec §3), restricted to the
fields the enrichment stage reads — `title`, `description`, `solution`
and `effectiveOn`; an empty string stands for an absent field, as a Go
zero value does. -/
structure RuleInfo : Type where
  title : String := ""
  description : String := ""
  solution : String := ""
  effectiveOn : String := ""
deriving DecidableEq

/-- Modelled from the spec: the `RuleIndex`, a "mapping code →
RuleDescriptor, keys unique" (spec §3); embedded as an association list. -/
abbrev PolicyRules : Type := List (String × RuleInfo)

/-- Lookup of a rule descriptor by code. -/
def ruleLookup : PolicyRules → String → Option RuleInfo
  | [], _ => none
  | (k, v) :: rest, key => if k = key then some v else ruleLookup rest key

/-- Modelled from the spec: normalization of the `collections` metadata
value — a `[]string` is kept, a `[]any` is normalized to the list of its
string elements, and any other present value is removed (spec §3 "must be
normalized", §4.3 "a collections value that is not a list of strings is
normalized to absent"). -/
def normalizeCollections (md : Metadata) : Metadata :=
  match mdLookup md "collections" with
  | none => md
  | some (Value.listStr _) => md
  | some (Value.listAny l) =>
    mdSet md "collections"
      (Value.listStr (l.filterMap
        (fun v => match v with | Scalar.str s => some s | _ => none)))
  | some _ => mdErase md "collections"

/-- Modelled from the spec: the descriptor-to-result field copies of the
enrichment stage (spec §4.5) — copy `title`, `description` and `solution`
from the descriptor when the descriptor has them and the result lacks
them, and write the descriptor's `effectiveOn` when it has one. -/
def copyDescriptorFields (info : RuleInfo) (md : Metadata) : Metadata :=
  let md := if info.title ≠ "" ∧ mdLookup md "title" = none then
    mdSet md "title" (Value.str info.title) else md
  let md := if info.description ≠ "" ∧ mdLookup md "description" = none then
    mdSet md "description" (Value.str info.description) else md
  let md := if info.solution ≠ "" ∧ mdLookup md "solution" = none then
    mdSet md "solution" (Value.str info.solution) else md
  if info.effectiveOn ≠ "" then
    mdSet md "effective_on" (Value.str info.effectiveOn) else md

/-- Modelled from the spec: the stale-timestamp strip of the enrichment
stage (spec §4.5) — an `effective_on` whose timestamp is at or before the
effective time is removed from the metadata; a missing, non-string or
unparseable value is left alone. -/
def stripStaleEffectiveOn (effectiveTime : Nat) (md : Metadata) : Metadata :=
  match mdLookup md "effective_on" with
  | some (Value.str s) =>
    match parseTimestamp s with
    | some t => if t ≤ effectiveTime then mdErase md "effective_on" else md
    | none => md
  | _ => md

/-- Modelled from the spec: the enrichment of one result's metadata from a
rule descriptor (spec §4.5) — normalize `collections`, copy the descriptor
fields, then strip a stale `effective_on`.  The repository's
`TestRuleMetadata` pins the concrete outcomes of this stage. -/
def addMetadataToResults (effectiveTime : Nat) (info : RuleInfo)
    (md : Metadata) : Metadata :=
  stripStaleEffectiveOn effectiveTime
    (copyDescriptorFields info (normalizeCollections md))

/-- Modelled from the spec: `addRuleMetadata` — when the result's `code`
metadata is a string, the result's metadata is enriched against the rule
index entry for that code (a missing entry contributes a zero-valued
descriptor); a result without a string `code` is left untouched, as the
repository's `TestRuleMetadata` "rule not found" case pins. -/
def addRuleMetadata (effectiveTime : Nat) (rules : PolicyRules)
    (r : Result) : Result :=
  match mdLookup r.metadata "code" with
  | some (Value.str code) =>
    let info := (ruleLookup rules code).getD {}
    { r with metadata := addMetadataToResults effectiveTime info r.metadata }
  | _ => r

/-- Modelled from the spec: metadata enrichment applied to every result of
a CheckResult (spec §4.5). -/
def enrichCheckResult (effectiveTime : Nat) (rules : PolicyRules)
    (cr : CheckResult) : CheckResult :=
  { failures := cr.failures.map (addRuleMetadata effectiveTime rules)
    warnings := cr.warnings.map (addRuleMetadata effectiveTime rules)
    successes := cr.successes.map (addRuleMetadata effectiveTime rules)
    skipped := cr.skipped.map (addRuleMetadata effectiveTime rules)
    exceptions := cr.exceptions.map (addRuleMetadata effectiveTime rules) }

/-- The `depends_on` codes of a result (a list of strings, possibly
arriving as a `[]any`). -/
def dependsOnOf (r : Result) : List String :=
  match mdLookup r.metadata "depends_on" with
  | some v => valueStrings v
  | none => []

/-- The string `code`s of the failures of a CheckResult. -/
def failureCodes (cr : CheckResult) : List String :=
  cr.failures.filterMap (fun f =>
    match mdLookup f.metadata "code" with
    | some (Value.str c) => some c
    | _ => none)

/-- A result survives trimming when none of its `depends_on` codes names a
failure code. -/
def keptByTrim (fcodes : List String) (r : Result) : Bool :=
  (dependsOnOf r).all (fun d => ! fcodes.contains d)

/-- Modelled from the spec: the dependency trimmer over one CheckResult
(spec §4.6) — collect the codes of the failures, then drop every result
whose `depends_on` names one of them.  The repository's
`TestCheckResultsTrim` pins that the failures bucket itself is trimmed in
the same way as warnings and successes (its third case expects a failure
that depends on a failing code to be removed). -/
def trimOne (cr : CheckResult) : CheckResult :=
  let fcodes := failureCodes cr
  { cr with
    failures := cr.failures.filter (keptByTrim fcodes)
    warnings := cr.warnings.filter (keptByTrim fcodes)
    successes := cr.successes.filter (keptByTrim fcodes) }

/-- Modelled from the spec: `trim` over the whole result sequence. -/
def trim (crs : List CheckResult) : List CheckResult :=
  crs.map trimOne

/-- Modelled from the spec: post-processing of one CheckResult (spec §4.7
step 7) — apply include/exclude to the failures and warnings, apply the
time gate, then enrich metadata; `skipped` and `exceptions` are carried
over and the wrapper's successes list starts empty. -/
def processCheckResult (effectiveTime : Nat) (rules : PolicyRules)
    (includes excludes : List String) (rr : OutputCheckResult) : CheckResult :=
  let filtered : CheckResult :=
    { failures := rr.failures.filter (isResultIncluded includes excludes)
      warnings := rr.warnings.filter (isResultIncluded includes excludes)
      successes := []
      skipped := rr.skipped
      exceptions := rr.exceptions }
  enrichCheckResult effectiveTime rules (timeGate effectiveTime filtered)

/-- Modelled from the spec: the emptiness test of spec §4.7 step 6 — a
runner result counts as empty when its failures and warnings buckets are
empty and its success count is zero. -/
def checkResultEmpty (rr : OutputCheckResult) : Bool :=
  rr.failures.isEmpty && rr.warnings.isEmpty && rr.successes == 0

/-- The error message of spec §4.7 step 6. -/
def emptyResultsMessage : String :=
  "no successes, warnings, or failures, check input"

/-- The outcome of `Evaluate`, mirroring Go's
`(CheckResults, Data, error)` triple of nilable results. -/
structure EvalOutput (δ : Type) : Type where
  report : Option (List CheckResult)
  data : Option δ
  err : Option String
deriving DecidableEq

/-- Modelled from the spec: the evaluation orchestrator's post-runner
behaviour (spec §4.7 steps 6–8) — fail with the empty-results error,
returning neither report nor data, when every runner result is empty;
otherwise post-process every CheckResult in order (include/exclude, time
gate, enrichment, then the dependency trim) and return the report together
with the runner's data. -/
def evaluate {δ : Type} (effectiveTime : Nat) (rules : PolicyRules)
    (cfg : Config) (runResults : List OutputCheckResult) (data : Option δ) :
    EvalOutput δ :=
  if runResults.all checkResultEmpty then
    { report := none, data := none, err := some emptyResultsMessage }
  else
    { report := some (trim (runResults.map
        (processCheckResult effectiveTime rules (effectiveInclude cfg)
          cfg.excludeList)))
      data := data
      err := none }

/-- The effective time used for the concrete evaluations below
(2024-06-01T00:00:00Z as a timestamp key); the repository's time-based
tests run with a 2024-era wall clock. -/
def sampleEffectiveTime : Nat := 20240601000000

/-- The runner output of the repository's
`TestConftestEvaluatorEvaluateTimeBased`. -/
def timeBasedInput : List OutputCheckResult :=
  [{ failures := [
      ⟨"missing effective date", []⟩,
      ⟨"already effective", [("effective_on", .str "2021-01-01T00:00:00Z")]⟩,
      ⟨"invalid effective date", [("effective_on", .str "hangout-not-a-date")]⟩,
      ⟨"unexpected effective date type", [("effective_on", .bool true)]⟩,
      ⟨"not yet effective", [("effective_on", .str "3021-01-01T00:00:00Z")]⟩],
     warnings := [
      ⟨"existing warning", [("effective_on", .str "2021-01-01T00:00:00Z")]⟩] }]

/-- The report that `TestConftestEvaluatorEvaluateTimeBased` expects. -/
def timeBasedExpected : List CheckResult :=
  [{ failures := [
      ⟨"missing effective date", []⟩,
      ⟨"already effective", [("effective_on", .str "2021-01-01T00:00:00Z")]⟩,
      ⟨"invalid effective date", [("effective_on", .str "hangout-not-a-date")]⟩,
      ⟨"unexpected effective date type", [("effective_on", .bool true)]⟩],
     warnings := [
      ⟨"existing warning", [("effective_on", .str "2021-01-01T00:00:00Z")]⟩,
      ⟨"not yet effective", [("effective_on", .str "3021-01-01T00:00:00Z")]⟩] }]

/-- The runner output of the repository's include/exclude test case
"include by package and rule name with exclude wildcard" (scenario E5). -/
def specificityInput : List OutputCheckResult :=
  [{ failures := [
      ⟨"", [("code", .str "breakfast.spam")]⟩,
      ⟨"", [("code", .str "breakfast.eggs")]⟩,
      ⟨"", [("code", .str "lunch.spam")]⟩],
     warnings := [
      ⟨"", [("code", .str "breakfast.ham")]⟩,
      ⟨"", [("code", .str "breakfast.sausage")]⟩,
      ⟨"", [("code", .str "lunch.ham")]⟩] }]

/-- The report the E5 test case expects. -/
def specificityExpected : List CheckResult :=
  [{ failures := [
      ⟨"", [("code", .str "breakfast.spam")]⟩,
      ⟨"", [("code", .str "lunch.spam")]⟩],
     warnings := [
      ⟨"", [("code", .str "breakfast.ham")]⟩,
      ⟨"", [("code", .str "lunch.ham")]⟩] }]

/-- The runner output of the include-by-collection test cases (scenarios
E2/E6). -/
def collectionsInput : List OutputCheckResult :=
  [{ failures := [
      ⟨"", [("code", .str "breakfast.spam"), ("collections", .listAny [.str "foo"])]⟩,
      ⟨"", [("code", .str "lunch.spam"), ("collections", .listAny [.str "bar"])]⟩,
      ⟨"", [("code", .str "dinner.spam")]⟩],
     warnings := [
      ⟨"", [("code", .str "breakfast.ham"), ("collections", .listAny [.str "foo"])]⟩,
      ⟨"", [("code", .str "lunch.ham"), ("collections", .listAny [.str "bar"])]⟩,
      ⟨"", [("code", .str "dinner.ham")]⟩] }]

/-- The report the E2/E6 test cases expect (collections normalized to
lists of strings). -/
def collectionsExpected : List CheckResult :=
  [{ failures := [
      ⟨"", [("collections", .listStr ["foo"]), ("code", .str "breakfast.spam")]⟩],
     warnings := [
      ⟨"", [("collections", .listStr ["foo"]), ("code", .str "breakfast.ham")]⟩] }]

/-- The runner output of the "ignore unexpected collection type" test
case. -/
def collectionTypesInput : List OutputCheckResult :=
  [{ failures := [
      ⟨"", [("code", .str "breakfast.spam"), ("collections", .listAny [.str "foo"])]⟩,
      ⟨"", [("code", .str "lunch.spam"), ("collections", .int 0)]⟩],
     warnings := [
      ⟨"", [("code", .str "breakfast.ham"), ("collections", .listAny [.str "foo"])]⟩,
      ⟨"", [("code", .str "lunch.ham"), ("collections", .bool false)]⟩] }]

/-- The report the "ignore unexpected collection type" test case
expects. -/
def collectionTypesExpected : List CheckResult :=
  [{ failures := [
      ⟨"", [("collections", .listStr ["foo"]), ("code", .str "breakfast.spam")]⟩,
      ⟨"", [("code", .str "lunch.spam")]⟩],
     warnings := [
      ⟨"", [("collections", .listStr ["foo"]), ("code", .str "breakfast.ham")]⟩,
      ⟨"", [("code", .str "lunch.ham")]⟩] }]

/-- The CheckResults of the repository's `TestCheckResultsTrim` case
"failures, warnings and successes with dependencies": the second failure,
the warning and the success all depend on the failing code
`"a.failure"`. -/
def dependentFailureInput : List CheckResult :=
  [{ failures := [
      ⟨"Fails", [("code", .str "a.failure")]⟩,
      ⟨"Fails and depends", [("code", .str "a.failure"), ("depends_on", .listStr ["a.failure"])]⟩],
     warnings := [
      ⟨"Warning", [("code", .str "a.warning"), ("depends_on", .listStr ["a.failure"])]⟩],
     successes := [
      ⟨"pass", [("code", .str "a.success"), ("depends_on", .listStr ["a.failure"])]⟩] }]

/-- The rule index of the repository's `TestRuleMetadata` (with
`warning3`'s `effectiveOn` one day after `sampleEffectiveTime`, as the
test builds it from the wall clock against an effective time 24 hours
earlier). -/
def sampleRules : PolicyRules :=
  [("warning1", { title := "Warning1" }),
   ("failure2", { title := "Failure2", description := "Failure 2 description" }),
   ("warning2", { title := "Warning2", description := "Warning 2 description",
                  effectiveOn := "2022-01-01T00:00:00Z" }),
   ("warning3", { title := "Warning3", description := "Warning 3 description",
                  effectiveOn := "2024-06-02T00:00:00Z" })]

/-! ### Lemmas about the character-splitting helpers -/

theorem splitOnChar_ne_nil (sep : Char) (l : List Char) :
    splitOnChar sep l ≠ [] := by
  induction l with
  | nil => simp [splitOnChar]
  | cons c rest ih =>
    simp only [splitOnChar]
    split
    · simp
    · split
      · simp
      · simp

theorem splitOnChar_cons_sep (sep : Char) (rest : List Char) :
    splitOnChar sep (sep :: rest) = [] :: splitOnChar sep rest := by
  simp [splitOnChar]

theorem splitOnChar_cons_ne (sep c : Char) (rest : List Char) (h : ¬c = sep) :
    splitOnChar sep (c :: rest) =
      match splitOnChar sep rest with
      | [] => [[c]]
      | comp :: comps => (c :: comp) :: comps := by
  simp [splitOnChar, h]

theorem splitOnChar_no_sep (sep : Char) (l : List Char) (h : sep ∉ l) :
    splitOnChar sep l = [l] := by
  induction l with
  | nil => rfl
  | cons c rest ih =>
    simp only [List.mem_cons, not_or] at h
    rw [splitOnChar_cons_ne sep c rest (fun hc => h.1 hc.symm), ih h.2]

theorem splitOnChar_append (sep : Char) (a b : List Char) :
    splitOnChar sep (a ++ sep :: b) = splitOnChar sep a ++ splitOnChar sep b := by
  induction a with
  | nil => simp [splitOnChar_cons_sep, splitOnChar]
  | cons c a ih =>
    rw [List.cons_append]
    by_cases hc : c = sep
    · subst hc
      rw [splitOnChar_cons_sep, splitOnChar_cons_sep, ih]
      rfl
    · rw [splitOnChar_cons_ne sep c _ hc, splitOnChar_cons_ne sep c _ hc, ih]
      obtain ⟨h0, t0, he⟩ := List.exists_cons_of_ne_nil (splitOnChar_ne_nil sep a)
      rw [he]
      rfl

theorem splitFirst_cons_sep (sep : Char) (rest : List Char) :
    splitFirst sep (sep :: rest) = ([], some rest) := by
  simp [splitFirst]

theorem splitFirst_cons_ne (sep c : Char) (rest : List Char) (h : ¬c = sep) :
    splitFirst sep (c :: rest) =
      (c :: (splitFirst sep rest).1, (splitFirst sep rest).2) := by
  simp [splitFirst, h]

theorem splitFirst_no_sep (sep : Char) (l : List Char) (h : sep ∉ l) :
    splitFirst sep l = (l, none) := by
  induction l with
  | nil => rfl
  | cons c rest ih =>
    simp only [List.mem_cons, not_or] at h
    rw [splitFirst_cons_ne sep c rest (fun hc => h.1 hc.symm), ih h.2]

theorem splitFirst_append (sep : Char) (a b : List Char) (h : sep ∉ a) :
    splitFirst sep (a ++ sep :: b) = (a, some b) := by
  induction a with
  | nil => simp [splitFirst_cons_sep]
  | cons c a ih =>
    simp only [List.mem_cons, not_or] at h
    rw [List.cons_append, splitFirst_cons_ne sep c _ (fun hc => h.1 hc.symm),
      ih h.2]

/-! ### Lemmas about metadata lookup, update and removal -/

theorem mdLookup_cons (pk : String) (pv : Value) (rest : Metadata)
    (key : String) :
    mdLookup ((pk, pv) :: rest) key =
      if pk = key then some pv else mdLookup rest key := rfl

theorem mdErase_cons (pk : String) (pv : Value) (rest : Metadata)
    (k : String) :
    mdErase ((pk, pv) :: rest) k =
      if pk = k then mdErase rest k else (pk, pv) :: mdErase rest k := by
  by_cases hp : pk = k <;> simp [mdErase, List.filter_cons, hp]

theorem mdLookup_mdErase_self (md : Metadata) (k : String) :
    mdLookup (mdErase md k) k = none := by
  induction md with
  | nil => rfl
  | cons p rest ih =>
    obtain ⟨pk, pv⟩ := p
    rw [mdErase_cons]
    by_cases hp : pk = k
    · rw [if_pos hp]
      exact ih
    · rw [if_neg hp, mdLookup_cons, if_neg hp]
      exact ih

theorem mdLookup_mdErase_ne (md : Metadata) (k k' : String) (h : k' ≠ k) :
    mdLookup (mdErase md k) k' = mdLookup md k' := by
  induction md with
  | nil => rfl
  | cons p rest ih =>
    obtain ⟨pk, pv⟩ := p
    rw [mdErase_cons, mdLookup_cons]
    by_cases hp : pk = k
    · have hne : pk ≠ k' := fun he => h (by rw [← he, hp])
      rw [if_pos hp, if_neg hne, ih]
    · rw [if_neg hp, mdLookup_cons]
      by_cases hq : pk = k' <;> simp [hq, ih]

theorem mdLookup_mdSet_self (md : Metadata) (k : String) (v : Value) :
    mdLookup (mdSet md k v) k = some v := by
  simp [mdSet, mdLookup_cons]

theorem mdLookup_mdSet_ne (md : Metadata) (k : String) (v : Value)
    (k' : String) (h : k' ≠ k) :
    mdLookup (mdSet md k v) k' = mdLookup md k' := by
  rw [mdSet, mdLookup_cons, if_neg (fun hh => h hh.symm),
    mdLookup_mdErase_ne md k k' h]

/-! ### Lemmas about collections normalization and metadata enrichment -/

theorem mdLookup_normalizeCollections_ne (md : Metadata) (k : String)
    (h : k ≠ "collections") :
    mdLookup (normalizeCollections md) k = mdLookup md k := by
  unfold normalizeCollections
  split
  · rfl
  · rfl
  · rw [mdLookup_mdSet_ne _ _ _ _ h]
  · rw [mdLookup_mdErase_ne _ _ _ h]

theorem normalizeCollections_shape (md : Metadata) :
    mdLookup (normalizeCollections md) "collections" = none
    ∨ ∃ l, mdLookup (normalizeCollections md) "collections"
        = some (Value.listStr l) := by
  unfold normalizeCollections
  split
  · left
    assumption
  · right
    exact ⟨_, by assumption⟩
  · right
    exact ⟨_, mdLookup_mdSet_self _ _ _⟩
  · left
    exact mdLookup_mdErase_self _ _

theorem mdLookup_copyDescriptorFields_ne (info : RuleInfo) (md : Metadata)
    (k : String) (h1 : k ≠ "title") (h2 : k ≠ "description")
    (h3 : k ≠ "solution") (h4 : k ≠ "effective_on") :
    mdLookup (copyDescriptorFields info md) k = mdLookup md k := by
  simp only [copyDescriptorFields]
  repeat' split
  all_goals
    simp only [mdLookup_mdSet_ne _ _ _ _ h1, mdLookup_mdSet_ne _ _ _ _ h2,
      mdLookup_mdSet_ne _ _ _ _ h3, mdLookup_mdSet_ne _ _ _ _ h4]

theorem copyDescriptorFields_effective_on_some (info : RuleInfo)
    (md : Metadata) (h : info.effectiveOn ≠ "") :
    mdLookup (copyDescriptorFields info md) "effective_on"
      = some (Value.str info.effectiveOn) := by
  simp only [copyDescriptorFields]
  rw [if_pos h]
  exact mdLookup_mdSet_self _ _ _

theorem mdLookup_stripStaleEffectiveOn_ne (t : Nat) (md : Metadata)
    (k : String) (h : k ≠ "effective_on") :
    mdLookup (stripStaleEffectiveOn t md) k = mdLookup md k := by
  unfold stripStaleEffectiveOn
  repeat' split
  all_goals first
    | rfl
    | rw [mdLookup_mdErase_ne _ _ _ h]

theorem stripStaleEffectiveOn_stale (t : Nat) (md : Metadata) (s : String)
    (u : Nat) (hs : mdLookup md "effective_on" = some (Value.str s))
    (hp : parseTimestamp s = some u) (hle : u ≤ t) :
    mdLookup (stripStaleEffectiveOn t md) "effective_on" = none := by
  simp only [stripStaleEffectiveOn, hs, hp]
  rw [if_pos hle]
  exact mdLookup_mdErase_self _ _

theorem stripStaleEffectiveOn_fresh (t : Nat) (md : Metadata) (s : String)
    (u : Nat) (hs : mdLookup md "effective_on" = some (Value.str s))
    (hp : parseTimestamp s = some u) (hgt : t < u) :
    stripStaleEffectiveOn t md = md := by
  simp only [stripStaleEffectiveOn, hs, hp]
  rw [if_neg (by omega)]

theorem mdLookup_addMetadataToResults_collections (t : Nat) (info : RuleInfo)
    (md : Metadata) :
    mdLookup (addMetadataToResults t info md) "collections"
      = mdLookup (normalizeCollections md) "collections" := by
  unfold addMetadataToResults
  rw [mdLookup_stripStaleEffectiveOn_ne _ _ _ (by decide),
    mdLookup_copyDescriptorFields_ne _ _ _ (by decide) (by decide) (by decide)
      (by decide)]

theorem mdLookup_addMetadataToResults_code (t : Nat) (info : RuleInfo)
    (md : Metadata) :
    mdLookup (addMetadataToResults t info md) "code"
      = mdLookup md "code" := by
  unfold addMetadataToResults
  rw [mdLookup_stripStaleEffectiveOn_ne _ _ _ (by decide),
    mdLookup_copyDescriptorFields_ne _ _ _ (by decide) (by decide) (by decide)
      (by decide), mdLookup_normalizeCollections_ne _ _ (by decide)]

theorem addRuleMetadata_code (t : Nat) (rules : PolicyRules) (r : Result) :
    mdLookup (addRuleMetadata t rules r).metadata "code"
      = mdLookup r.metadata "code" := by
  simp only [addRuleMetadata]
  split
  · exact mdLookup_addMetadataToResults_code _ _ _
  · rfl

theorem addRuleMetadata_collections_shape (t : Nat) (rules : PolicyRules)
    (r : Result) (c : String)
    (hc : mdLookup r.metadata "code" = some (Value.str c)) :
    mdLookup (addRuleMetadata t rules r).metadata "collections" = none
    ∨ ∃ l, mdLookup (addRuleMetadata t rules r).metadata "collections"
        = some (Value.listStr l) := by
  simp only [addRuleMetadata, hc]
  rw [mdLookup_addMetadataToResults_collections]
  exact normalizeCollections_shape _

/-! ### Lemmas about the time gate -/

theorem isResultEffective_false_iff (t : Nat) (r : Result) :
    isResultEffective t r = false ↔
      ∃ s u, mdLookup r.metadata "effective_on" = some (Value.str s)
        ∧ parseTimestamp s = some u ∧ t < u := by
  cases heq : mdLookup r.metadata "effective_on" with
  | none => simp [isResultEffective, heq]
  | some v =>
    cases v with
    | str s =>
      cases hp : parseTimestamp s with
      | none => simp [isResultEffective, heq, hp]
      | some u =>
        simp only [isResultEffective, heq, hp]
        constructor
        · intro h
          refine ⟨s, u, rfl, hp, ?_⟩
          simpa using h
        · rintro ⟨s', u', hs', hp', hlt⟩
          obtain rfl : s = s' := by simpa using hs'
          obtain rfl : u = u' := by
            rw [hp] at hp'
            exact Option.some.inj hp'
          simp
          omega
    | bool b => simp [isResultEffective, heq]
    | int n => simp [isResultEffective, heq]
    | listAny l => simp [isResultEffective, heq]
    | listStr l => simp [isResultEffective, heq]

/-- C2: for every failure processed by the time gate, a missing,
non-string, unparseable or past `effective_on` leaves the result in the
failures bucket, and an `effective_on` that parses strictly after the
effective time moves it to the warnings bucket, appended after the
pre-existing warnings in order; the warnings, successes, skipped and
exceptions buckets are never moved by the gate.  The concrete conjunct is
the repository's `TestConftestEvaluatorEvaluateTimeBased`. -/
theorem timeGate_spec (t : Nat) (cr : CheckResult) :
    (timeGate t cr).failures = cr.failures.filter (isResultEffective t)
    ∧ (timeGate t cr).warnings
        = cr.warnings ++ cr.failures.filter (fun f => ! isResultEffective t f)
    ∧ (timeGate t cr).successes = cr.successes
    ∧ (timeGate t cr).skipped = cr.skipped
    ∧ (timeGate t cr).exceptions = cr.exceptions
    ∧ (∀ f : Result, isResultEffective t f = false ↔
        ∃ s u, mdLookup f.metadata "effective_on" = some (Value.str s)
          ∧ parseTimestamp s = some u ∧ t < u)
    ∧ (evaluate (δ := Nat) sampleEffectiveTime [] {} timeBasedInput
        (some 1)).report = some timeBasedExpected :=
  ⟨rfl, rfl, rfl, rfl, rfl, fun f => isResultEffective_false_iff t f, by decide⟩

/-- C2 witness: the `"not yet effective"` failure of the time-based test is
demoted at the 2024 effective time. -/
theorem timeGate_spec_witness :
    isResultEffective sampleEffectiveTime
      ⟨"not yet effective", [("effective_on", Value.str "3021-01-01T00:00:00Z")]⟩
      = false :=
  ((timeGate_spec sampleEffectiveTime {}).2.2.2.2.2.1 _).mpr
    ⟨"3021-01-01T00:00:00Z", 30210101000000, rfl, by decide, by decide⟩

/-- C4: `Evaluate` fails with "no successes, warnings, or failures, check
input" exactly when every runner CheckResult has empty failures and
warnings buckets and a zero success count; otherwise the error is not
raised.  The concrete conjuncts are the repository's
`TestConftestEvaluatorEvaluateNoSuccessWarningsOrFailures` and the
non-empty time-based run. -/
theorem evaluate_empty_error_iff :
    (∀ (δ : Type) (t : Nat) (rules : PolicyRules) (cfg : Config)
      (rrs : List OutputCheckResult) (data : Option δ),
      (evaluate t rules cfg rrs data).err = some emptyResultsMessage
        ↔ rrs.all checkResultEmpty = true)
    ∧ (∀ rr : OutputCheckResult, checkResultEmpty rr = true
        ↔ rr.failures = [] ∧ rr.warnings = [] ∧ rr.successes = 0)
    ∧ (evaluate (δ := Nat) sampleEffectiveTime [] {}
        [{ failures := [], warnings := [], successes := 0 }] (some 3)).err
      = some emptyResultsMessage
    ∧ (evaluate (δ := Nat) sampleEffectiveTime [] {} timeBasedInput
        (some 1)).err = none := by
  refine ⟨?_, ?_, by decide, by decide⟩
  · intro δ t rules cfg rrs data
    by_cases h : rrs.all checkResultEmpty = true
    · simp [evaluate, h]
    · simp [evaluate, h]
  · intro rr
    simp [checkResultEmpty, List.isEmpty_iff, and_assoc]

/-- C4 witness: the iff applied to the all-empty runner output of the
repository's no-successes test. -/
theorem evaluate_empty_error_iff_witness :
    (evaluate (δ := Nat) sampleEffectiveTime [] {}
      [{ failures := [], warnings := [], successes := 0 }] (some 3)).err
      = some emptyResultsMessage :=
  (evaluate_empty_error_iff.1 Nat sampleEffectiveTime [] {}
    [{ failures := [], warnings := [], successes := 0 }] (some 3)).mpr (by decide)

/-- C9: when `Evaluate` fails with the empty-result-set error it returns
neither a report nor the runner's data, even when the runner's data was
non-nil. -/
theorem evaluate_empty_error_atomic :
    (∀ (δ : Type) (t : Nat) (rules : PolicyRules) (cfg : Config)
      (rrs : List OutputCheckResult) (data : Option δ),
      (evaluate t rules cfg rrs data).err = some emptyResultsMessage →
        (evaluate t rules cfg rrs data).report = none
        ∧ (evaluate t rules cfg rrs data).data = none)
    ∧ evaluate (δ := Nat) sampleEffectiveTime [] {}
        [{ failures := [], warnings := [], successes := 0 }] (some 3)
      = { report := none, data := none, err := some emptyResultsMessage } := by
  refine ⟨?_, by decide⟩
  intro δ t rules cfg rrs data h
  by_cases hc : rrs.all checkResultEmpty = true
  · simp [evaluate, hc]
  · simp [evaluate, hc] at h

/-- C9 witness: at the no-successes test input with non-nil runner data,
both the report and the data come back nil. -/
theorem evaluate_empty_error_atomic_witness :
    (evaluate (δ := Nat) sampleEffectiveTime [] {}
      [{ failures := [], warnings := [], successes := 0 }] (some 3)).report = none
    ∧ (evaluate (δ := Nat) sampleEffectiveTime [] {}
      [{ failures := [], warnings := [], successes := 0 }] (some 3)).data = none :=
  evaluate_empty_error_atomic.1 Nat sampleEffectiveTime [] {}
    [{ failures := [], warnings := [], successes := 0 }] (some 3) (by decide)

theorem evaluate_cfg_congr {δ : Type} (t : Nat) (rules : PolicyRules)
    (cfg cfg' : Config) (h1 : effectiveInclude cfg = effectiveInclude cfg')
    (h2 : cfg.excludeList = cfg'.excludeList)
    (rrs : List OutputCheckResult) (data : Option δ) :
    evaluate t rules cfg rrs data = evaluate t rules cfg' rrs data := by
  unfold evaluate
  rw [h1, h2]

/-- C7: evaluating with the legacy configuration `collections = ts` yields
exactly the same report as evaluating with `include = ts.map ("@" ++ ·)`,
for every runner output; concretely, `collections = ["foo"]` selects the
same surviving results as `include = ["@foo"]` (the repository's
"include by old-style collection" and "include by collection" cases). -/
theorem collections_rewrite_spec :
    (∀ (δ : Type) (t : Nat) (rules : PolicyRules) (ex ts : List String)
      (rrs : List OutputCheckResult) (data : Option δ),
      evaluate t rules
          { includeList := [], excludeList := ex, collections := ts } rrs data
        = evaluate t rules
            { includeList := ts.map (fun tag => "@" ++ tag), excludeList := ex,
              collections := [] } rrs data)
    ∧ (evaluate (δ := Nat) sampleEffectiveTime [] { collections := ["foo"] }
        collectionsInput none).report = some collectionsExpected
    ∧ (evaluate (δ := Nat) sampleEffectiveTime [] { includeList := ["@foo"] }
        collectionsInput none).report = some collectionsExpected := by
  refine ⟨?_, by decide, by decide⟩
  intro δ t rules ex ts rrs data
  apply evaluate_cfg_congr
  · simp [effectiveInclude]
  · rfl

/-! ### The dependency trimmer -/

/-- C1 counterexample: on the CheckResults of the repository's own
`TestCheckResultsTrim` case "failures, warnings and successes with
dependencies", trimming does change the failures bucket — the failure
whose `depends_on` names the failing code `"a.failure"` is removed, as
that test expects. -/
theorem trim_removes_dependent_failure :
    ¬ ((trim dependentFailureInput).map CheckResult.failures
        = dependentFailureInput.map CheckResult.failures) := by decide

/-- C1 amended: the trimmer removes a result from the failures bucket
exactly when the result's `depends_on` names the code of a failure of the
same CheckResult; a failure with no such dependency is never removed.  The
concrete conjunct is the trim test's third case. -/
theorem trim_failures_spec :
    (∀ (cr : CheckResult) (r : Result), r ∈ cr.failures →
      (∀ d ∈ dependsOnOf r, d ∉ failureCodes cr) →
      r ∈ (trimOne cr).failures)
    ∧ (∀ (cr : CheckResult) (r : Result), r ∈ cr.failures →
      (∃ d ∈ dependsOnOf r, d ∈ failureCodes cr) →
      r ∉ (trimOne cr).failures)
    ∧ trim dependentFailureInput
        = [{ failures := [⟨"Fails", [("code", Value.str "a.failure")]⟩],
             warnings := [], successes := [] }] := by
  refine ⟨?_, ?_, by decide⟩
  · intro cr r hr hd
    have hk : keptByTrim (failureCodes cr) r = true := by
      unfold keptByTrim
      rw [List.all_eq_true]
      intro d hdm
      have := hd d hdm
      simp [List.elem_iff, this]
    simp only [trimOne]
    exact List.mem_filter.mpr ⟨hr, hk⟩
  · intro cr r hr hd
    obtain ⟨d, hdm, hdf⟩ := hd
    intro hmem
    simp only [trimOne] at hmem
    have hk := (List.mem_filter.mp hmem).2
    unfold keptByTrim at hk
    rw [List.all_eq_true] at hk
    have := hk d hdm
    simp [List.elem_iff, hdf] at this

/-- C1 amended witness: in the trim test's CheckResult, the independent
failure survives and the dependent failure is removed. -/
theorem trim_failures_spec_witness :
    (⟨"Fails", [("code", Value.str "a.failure")]⟩ : Result)
        ∈ (trimOne (dependentFailureInput.headD {})).failures
    ∧ (⟨"Fails and depends", [("code", Value.str "a.failure"),
        ("depends_on", Value.listStr ["a.failure"])]⟩ : Result)
        ∉ (trimOne (dependentFailureInput.headD {})).failures :=
  ⟨trim_failures_spec.1 _ _ (by decide) (by decide),
   trim_failures_spec.2.1 _ _ (by decide) (by decide)⟩

/-! ### The include/exclude decision -/

/-- C3: a result is kept iff the highest score among include patterns that
occur in its expansion tokens strictly exceeds the highest score among
matching exclude patterns; a tie drops the result; an empty include list
behaves as include `["*"]`; concretely, with include
`["*", "breakfast.spam", "breakfast.ham"]` and exclude `["breakfast.*"]`,
`breakfast.spam` is kept (110 > 10) and `breakfast.eggs` is dropped (the
repository's "include by package and rule name with exclude wildcard"
case). -/
theorem isResultIncluded_spec :
    (∀ (inc exc : List String) (r : Result),
      isResultIncluded inc exc r = true
        ↔ maxScore inc (matchersOf r) > maxScore exc (matchersOf r))
    ∧ (∀ (inc exc : List String) (r : Result),
      maxScore inc (matchersOf r) = maxScore exc (matchersOf r) →
        isResultIncluded inc exc r = false)
    ∧ (∀ ex : List String,
      effectiveInclude
        { includeList := [], excludeList := ex, collections := [] } = ["*"])
    ∧ maxScore ["*", "breakfast.spam", "breakfast.ham"]
        (matchersOf ⟨"", [("code", Value.str "breakfast.spam")]⟩) = 110
    ∧ maxScore ["breakfast.*"]
        (matchersOf ⟨"", [("code", Value.str "breakfast.spam")]⟩) = 10
    ∧ isResultIncluded ["*", "breakfast.spam", "breakfast.ham"]
        ["breakfast.*"] ⟨"", [("code", Value.str "breakfast.spam")]⟩ = true
    ∧ isResultIncluded ["*", "breakfast.spam", "breakfast.ham"]
        ["breakfast.*"] ⟨"", [("code", Value.str "breakfast.eggs")]⟩ = false
    ∧ (evaluate (δ := Nat) sampleEffectiveTime []
        { includeList := ["*", "breakfast.spam", "breakfast.ham"],
          excludeList := ["breakfast.*"] } specificityInput none).report
      = some specificityExpected := by
  refine ⟨?_, ?_, ?_, by decide, by decide, by decide, by decide, by decide⟩
  · intro inc exc r
    simp [isResultIncluded]
  · intro inc exc r h
    simp only [isResultIncluded, h, gt_iff_lt, decide_eq_false_iff_not]
    exact lt_irrefl _
  · intro ex
    rfl

/-- C3 witness: at equal include and exclude specificity the result is
dropped. -/
theorem isResultIncluded_spec_witness :
    isResultIncluded ["*"] ["*"] ⟨"", []⟩ = false :=
  isResultIncluded_spec.2.1 ["*"] ["*"] ⟨"", []⟩ (by decide)

/-! ### Pattern scoring shapes -/

theorem scoreChars_split_term (np t : List Char) (hc : ':' ∉ np) :
    scoreChars (np ++ ':' :: t) = scoreChars np + 100 := by
  simp only [scoreChars, splitFirst_append ':' np t hc,
    splitFirst_no_sep ':' np hc]
  simp [Nat.add_assoc]

theorem scoreChars_pkg (p : List Char) (hd : '.' ∉ p) (hc : ':' ∉ p)
    (hw : p ≠ ['*']) : scoreChars p = 10 := by
  simp only [scoreChars, splitFirst_no_sep ':' p hc,
    splitOnChar_no_sep '.' p hd]
  simp [hw]

theorem scoreChars_two_components (p n : List Char) (hdp : '.' ∉ p)
    (hdn : '.' ∉ n) (hcp : ':' ∉ p) (hcn : ':' ∉ n) :
    scoreChars (p ++ '.' :: n)
      = (if p = ['*'] then 1 else 10)
        + (if n = [] ∨ n = ['*'] then 0 else 100) := by
  have hc : ':' ∉ p ++ '.' :: n := by
    intro hm
    rcases List.mem_append.mp hm with h | h
    · exact hcp h
    · rcases List.mem_cons.mp h with h | h
      · exact absurd h (by decide)
      · exact hcn h
  simp only [scoreChars, splitFirst_no_sep ':' _ hc,
    splitOnChar_append '.' p n, splitOnChar_no_sep '.' p hdp,
    splitOnChar_no_sep '.' n hdn]
  simp

/-- C5: the pattern scoring function assigns, for every named package
`p`, named rule `n` and term `t`: 1 to `*`; 10 to `p`, `p.` and `p.*`;
110 to `p.n`, `p:t`, `p.*:t` and `p.:t`; 210 to `p.n:t`; 101 to `*:t`;
and 201 to `*.n:t` — a named package contributes 10, a named rule 100, a
term 100 and the bare wildcard 1. -/
theorem score_spec (p n t : List Char)
    (hdp : '.' ∉ p) (hcp : ':' ∉ p) (hwp : p ≠ ['*']) (hep : p ≠ [])
    (hdn : '.' ∉ n) (hcn : ':' ∉ n) (hwn : n ≠ ['*']) (hen : n ≠ []) :
    score "*" = 1
    ∧ score (String.mk p) = 10
    ∧ score (String.mk (p ++ ['.'])) = 10
    ∧ score (String.mk (p ++ ['.', '*'])) = 10
    ∧ score (String.mk (p ++ '.' :: n)) = 110
    ∧ score (String.mk (p ++ ':' :: t)) = 110
    ∧ score (String.mk (p ++ '.' :: '*' :: ':' :: t)) = 110
    ∧ score (String.mk (p ++ '.' :: ':' :: t)) = 110
    ∧ score (String.mk (p ++ '.' :: (n ++ ':' :: t))) = 210
    ∧ score (String.mk ('*' :: ':' :: t)) = 101
    ∧ score (String.mk ('*' :: '.' :: (n ++ ':' :: t))) = 201 := by
  have hnotin : ∀ a b : List Char, ':' ∉ a → ':' ∉ b → ':' ∉ a ++ '.' :: b := by
    intro a b ha hb hm
    rcases List.mem_append.mp hm with h | h
    · exact ha h
    · rcases List.mem_cons.mp h with h | h
      · exact absurd h (by decide)
      · exact hb h
  have hpkg : scoreChars p = 10 := scoreChars_pkg p hdp hcp hwp
  have hdot : scoreChars (p ++ ['.']) = 10 := by
    rw [scoreChars_two_components p [] hdp (by simp) hcp (by simp), if_neg hwp]
    simp
  have hstar : scoreChars (p ++ ['.', '*']) = 10 := by
    rw [scoreChars_two_components p ['*'] hdp (by decide) hcp (by decide),
      if_neg hwp]
    simp
  have hrule : scoreChars (p ++ '.' :: n) = 110 := by
    rw [scoreChars_two_components p n hdp hdn hcp hcn, if_neg hwp,
      if_neg (by simp [hen, hwn])]
  have hwild : scoreChars (['*'] ++ '.' :: n) = 101 := by
    rw [scoreChars_two_components ['*'] n (by decide) hdn (by decide) hcn,
      if_pos rfl, if_neg (by simp [hen, hwn])]
  refine ⟨by decide, hpkg, hdot, hstar, hrule, ?_, ?_, ?_, ?_, ?_, ?_⟩
  · show scoreChars (p ++ ':' :: t) = 110
    rw [scoreChars_split_term p t hcp, hpkg]
  · show scoreChars (p ++ '.' :: '*' :: ':' :: t) = 110
    rw [show p ++ '.' :: '*' :: ':' :: t = (p ++ ['.', '*']) ++ ':' :: t by simp,
      scoreChars_split_term _ t (hnotin p ['*'] hcp (by decide)), hstar]
  · show scoreChars (p ++ '.' :: ':' :: t) = 110
    rw [show p ++ '.' :: ':' :: t = (p ++ ['.']) ++ ':' :: t by simp,
      scoreChars_split_term _ t (hnotin p [] hcp (by simp)), hdot]
  · show scoreChars (p ++ '.' :: (n ++ ':' :: t)) = 210
    rw [show p ++ '.' :: (n ++ ':' :: t) = (p ++ '.' :: n) ++ ':' :: t by simp,
      scoreChars_split_term _ t (hnotin p n hcp hcn), hrule]
  · show scoreChars (['*'] ++ ':' :: t) = 101
    rw [scoreChars_split_term ['*'] t (by decide)]
    decide
  · show scoreChars (('*' :: '.' :: (n ++ ':' :: t) : List Char)) = 201
    rw [show ('*' :: '.' :: (n ++ ':' :: t) : List Char)
        = (['*'] ++ '.' :: n) ++ ':' :: t by simp,
      scoreChars_split_term _ t (hnotin ['*'] n (by decide) hcn), hwild]

/-- C5 witness: the general shapes instantiated at the literal pattern
components `pkg`, `rule` and `term` of the repository's
`TestNameScoring`. -/
theorem score_spec_witness :
    score "pkg.rule:term" = 210 ∧ score "*:term" = 101
    ∧ score "pkg.*" = 10 ∧ score "*.rule:term" = 201 := by
  obtain ⟨h1, h2, h3, h4, h5, h6, h7, h8, h9, h10, h11⟩ :=
    score_spec ['p', 'k', 'g'] ['r', 'u', 'l', 'e'] ['t', 'e', 'r', 'm']
      (by decide) (by decide) (by decide) (by decide)
      (by decide) (by decide) (by decide) (by decide)
  exact ⟨h9, h10, h4, h11⟩

/-! ### Token expansion shapes -/

theorem makeMatchersChars_two_noterm (p n : List Char) (hdp : '.' ∉ p)
    (hdn : '.' ∉ n) :
    makeMatchersChars (p ++ '.' :: n) [] =
      [p, p ++ ['.', '*'], p ++ '.' :: n, ['*']] := by
  simp only [makeMatchersChars, splitOnChar_append '.' p n,
    splitOnChar_no_sep '.' p hdp, splitOnChar_no_sep '.' n hdn]
  simp

theorem makeMatchersChars_two_term (p n t : List Char) (hdp : '.' ∉ p)
    (hdn : '.' ∉ n) (ht : t ≠ []) :
    makeMatchersChars (p ++ '.' :: n) t =
      [p, p ++ ['.', '*'], p ++ '.' :: n, p ++ ':' :: t,
       p ++ '.' :: '*' :: ':' :: t, p ++ '.' :: (n ++ ':' :: t), ['*']] := by
  simp only [makeMatchersChars, splitOnChar_append '.' p n,
    splitOnChar_no_sep '.' p hdp, splitOnChar_no_sep '.' n hdn]
  simp [ht]

theorem makeMatchersChars_single (c t : List Char) (hdc : '.' ∉ c) :
    makeMatchersChars c t = [['*']] := by
  simp only [makeMatchersChars, splitOnChar_no_sep '.' c hdc]
  simp

theorem makeMatchersChars_extra_components (pre p n t : List Char)
    (hdp : '.' ∉ p) (hdn : '.' ∉ n) :
    makeMatchersChars (pre ++ '.' :: (p ++ '.' :: n)) t
      = makeMatchersChars (p ++ '.' :: n) t := by
  simp only [makeMatchersChars, splitOnChar_append '.' pre (p ++ '.' :: n),
    splitOnChar_append '.' p n, splitOnChar_no_sep '.' p hdp,
    splitOnChar_no_sep '.' n hdn]
  simp [List.reverse_append]

/-- C6: `makeMatchers` emits, in order, `pkg`, `pkg.*`, `pkg.name`, then
(only when a term is present) `pkg:term`, `pkg.*:term`, `pkg.name:term`,
and finally `"*"`, where `pkg` and `name` are the last two dotted
components of the code; a code with fewer than two dotted components
(including an absent code) yields exactly `["*"]` with the term ignored;
and components of the code to the left of the last two have no effect on
the expansion. -/
theorem makeMatchers_spec (msg : String) (md : Metadata)
    (p n t c pre : List Char)
    (hdp : '.' ∉ p) (hdn : '.' ∉ n) (hdc : '.' ∉ c) :
    (mdLookup md "code" = some (Value.str (String.mk (p ++ '.' :: n))) →
      mdLookup md "term" = some (Value.str (String.mk t)) → t ≠ [] →
      makeMatchers ⟨msg, md⟩ =
        [String.mk p, String.mk (p ++ ['.', '*']), String.mk (p ++ '.' :: n),
         String.mk (p ++ ':' :: t), String.mk (p ++ '.' :: '*' :: ':' :: t),
         String.mk (p ++ '.' :: (n ++ ':' :: t)), "*"])
    ∧ (mdLookup md "code" = some (Value.str (String.mk (p ++ '.' :: n))) →
      mdLookup md "term" = none →
      makeMatchers ⟨msg, md⟩ =
        [String.mk p, String.mk (p ++ ['.', '*']),
         String.mk (p ++ '.' :: n), "*"])
    ∧ (mdLookup md "code" = some (Value.str (String.mk c)) →
      makeMatchers ⟨msg, md⟩ = ["*"])
    ∧ (mdLookup md "code" = none → makeMatchers ⟨msg, md⟩ = ["*"])
    ∧ makeMatchersChars (pre ++ '.' :: (p ++ '.' :: n)) t
        = makeMatchersChars (p ++ '.' :: n) t := by
  refine ⟨?_, ?_, ?_, ?_, makeMatchersChars_extra_components pre p n t hdp hdn⟩
  · intro hcode hterm ht
    unfold makeMatchers
    rw [show getString md "code" = String.mk (p ++ '.' :: n) by
        simp [getString, hcode],
      show getString md "term" = String.mk t by simp [getString, hterm]]
    show (makeMatchersChars (p ++ '.' :: n) t).map String.mk = _
    rw [makeMatchersChars_two_term p n t hdp hdn ht]
    rfl
  · intro hcode hterm
    unfold makeMatchers
    rw [show getString md "code" = String.mk (p ++ '.' :: n) by
        simp [getString, hcode],
      show getString md "term" = "" by simp [getString, hterm]]
    show (makeMatchersChars (p ++ '.' :: n) []).map String.mk = _
    rw [makeMatchersChars_two_noterm p n hdp hdn]
    rfl
  · intro hcode
    unfold makeMatchers
    rw [show getString md "code" = String.mk c by simp [getString, hcode]]
    show (makeMatchersChars c (getString md "term").data).map String.mk = _
    rw [makeMatchersChars_single c _ hdc]
    rfl
  · intro hcode
    unfold makeMatchers
    rw [show getString md "code" = "" by simp [getString, hcode]]
    show (makeMatchersChars [] (getString md "term").data).map String.mk = _
    rw [makeMatchersChars_single [] _ (by simp)]
    rfl

/-- C6 witness: the expansions of the repository's `TestMakeMatchers`
"valid" and "incomplete code with term" cases. -/
theorem makeMatchers_spec_witness :
    makeMatchers ⟨"", [("code", Value.str "breakfast.spam"),
        ("term", Value.str "eggs")]⟩
      = ["breakfast", "breakfast.*", "breakfast.spam", "breakfast:eggs",
         "breakfast.*:eggs", "breakfast.spam:eggs", "*"]
    ∧ makeMatchers ⟨"", [("code", Value.str "spam"),
        ("term", Value.str "eggs")]⟩ = ["*"] := by
  constructor
  · exact (makeMatchers_spec ""
      [("code", Value.str "breakfast.spam"), ("term", Value.str "eggs")]
      ['b', 'r', 'e', 'a', 'k', 'f', 'a', 's', 't'] ['s', 'p', 'a', 'm']
      ['e', 'g', 'g', 's'] [] []
      (by decide) (by decide) (by decide)).1 (by decide) (by decide) (by decide)
  · exact (makeMatchers_spec ""
      [("code", Value.str "spam"), ("term", Value.str "eggs")]
      [] [] [] ['s', 'p', 'a', 'm'] []
      (by decide) (by decide) (by decide)).2.2.1 (by decide)

/-! ### Metadata enrichment and effective_on injection -/

/-- C10: when a result's metadata lacks `effective_on` and its code names a
descriptor whose `effectiveOn` parses to a timestamp strictly after the
effective time, `addRuleMetadata` adds the descriptor's value to the
result's metadata; when the descriptor's timestamp is at or before the
effective time, the result ends up with no `effective_on` entry. -/
theorem addRuleMetadata_effective_on_spec (t : Nat) (rules : PolicyRules)
    (msg code : String) (md : Metadata) (info : RuleInfo) (u : Nat)
    (hcode : mdLookup md "code" = some (Value.str code))
    (hrule : ruleLookup rules code = some info)
    (hmiss : mdLookup md "effective_on" = none)
    (hparse : parseTimestamp info.effectiveOn = some u) :
    (t < u →
      mdLookup (addRuleMetadata t rules ⟨msg, md⟩).metadata "effective_on"
        = some (Value.str info.effectiveOn))
    ∧ (u ≤ t →
      mdLookup (addRuleMetadata t rules ⟨msg, md⟩).metadata "effective_on"
        = none) := by
  have hne : info.effectiveOn ≠ "" := by
    intro he
    rw [he] at hparse
    have hnone : parseTimestamp "" = none := rfl
    rw [hnone] at hparse
    exact Option.noConfusion hparse
  have hcopy : mdLookup (copyDescriptorFields info (normalizeCollections md))
      "effective_on" = some (Value.str info.effectiveOn) :=
    copyDescriptorFields_effective_on_some info _ hne
  constructor
  · intro hlt
    simp only [addRuleMetadata, hcode, hrule, Option.getD_some]
    unfold addMetadataToResults
    rw [stripStaleEffectiveOn_fresh t _ info.effectiveOn u hcopy hparse hlt,
      hcopy]
  · intro hle
    simp only [addRuleMetadata, hcode, hrule, Option.getD_some]
    unfold addMetadataToResults
    exact stripStaleEffectiveOn_stale t _ info.effectiveOn u hcopy hparse hle

/-- C10 witness: at the effective time of the repository's
`TestRuleMetadata`, the `warning3` descriptor's future `effectiveOn` is
added to the result and the `warning2` descriptor's past `effectiveOn` is
not. -/
theorem addRuleMetadata_effective_on_spec_witness :
    mdLookup (addRuleMetadata sampleEffectiveTime sampleRules
        ⟨"", [("code", Value.str "warning3")]⟩).metadata "effective_on"
      = some (Value.str "2024-06-02T00:00:00Z")
    ∧ mdLookup (addRuleMetadata sampleEffectiveTime sampleRules
        ⟨"", [("code", Value.str "warning2")]⟩).metadata "effective_on"
      = none := by
  constructor
  · exact (addRuleMetadata_effective_on_spec sampleEffectiveTime sampleRules
      "" "warning3" [("code", Value.str "warning3")]
      { title := "Warning3", description := "Warning 3 description",
        effectiveOn := "2024-06-02T00:00:00Z" } 20240602000000
      (by decide) (by decide) (by decide) (by decide)).1 (by decide)
  · exact (addRuleMetadata_effective_on_spec sampleEffectiveTime sampleRules
      "" "warning2" [("code", Value.str "warning2")]
      { title := "Warning2", description := "Warning 2 description",
        effectiveOn := "2022-01-01T00:00:00Z" } 20220101000000
      (by decide) (by decide) (by decide) (by decide)).2 (by decide)

/-! ### Collections normalization through the pipeline -/

/-- The runner output exhibiting a result without a `code` whose
`collections` metadata is not a list of strings. -/
def badCollectionsInput : List OutputCheckResult :=
  [{ failures := [⟨"f", [("collections", Value.bool false)]⟩] }]

/-- C8 counterexample: a surviving failure with no string `code` keeps a
`collections` value that is a boolean — neither absent nor a list of
strings — because enrichment, the only normalization point, skips results
without a string `code` (as the repository's `TestRuleMetadata`
"rule not found" case pins). -/
theorem evaluate_keeps_unnormalized_collections :
    (evaluate (δ := Nat) sampleEffectiveTime [] {} badCollectionsInput
        none).report
      = some [{ failures := [⟨"f", [("collections", Value.bool false)]⟩],
                warnings := [], successes := [], skipped := [],
                exceptions := [] }]
    ∧ mdLookup [("collections", Value.bool false)] "collections"
      = some (Value.bool false) := by decide

theorem trimOne_mem_failures (cr : CheckResult) (r : Result)
    (h : r ∈ (trimOne cr).failures) : r ∈ cr.failures := by
  simp only [trimOne] at h
  exact (List.mem_filter.mp h).1

theorem trimOne_mem_warnings (cr : CheckResult) (r : Result)
    (h : r ∈ (trimOne cr).warnings) : r ∈ cr.warnings := by
  simp only [trimOne] at h
  exact (List.mem_filter.mp h).1

theorem trimOne_mem_successes (cr : CheckResult) (r : Result)
    (h : r ∈ (trimOne cr).successes) : r ∈ cr.successes := by
  simp only [trimOne] at h
  exact (List.mem_filter.mp h).1

theorem enrichCheckResult_mem (t : Nat) (rules : PolicyRules)
    (cr : CheckResult) (r : Result)
    (h : r ∈ (enrichCheckResult t rules cr).failures
      ∨ r ∈ (enrichCheckResult t rules cr).warnings
      ∨ r ∈ (enrichCheckResult t rules cr).successes
      ∨ r ∈ (enrichCheckResult t rules cr).skipped
      ∨ r ∈ (enrichCheckResult t rules cr).exceptions) :
    ∃ r0, r = addRuleMetadata t rules r0 := by
  simp only [enrichCheckResult] at h
  rcases h with h | h | h | h | h <;>
  · obtain ⟨r0, _, he⟩ := List.mem_map.mp h
    exact ⟨r0, he.symm⟩

theorem processCheckResult_mem (t : Nat) (rules : PolicyRules)
    (inc exc : List String) (rr : OutputCheckResult) (r : Result)
    (h : r ∈ (processCheckResult t rules inc exc rr).failures
      ∨ r ∈ (processCheckResult t rules inc exc rr).warnings
      ∨ r ∈ (processCheckResult t rules inc exc rr).successes
      ∨ r ∈ (processCheckResult t rules inc exc rr).skipped
      ∨ r ∈ (processCheckResult t rules inc exc rr).exceptions) :
    ∃ r0, r = addRuleMetadata t rules r0 := by
  exact enrichCheckResult_mem t rules _ r h

/-- C8 amended: after post-processing, every Result in every bucket of
every CheckResult of the report **whose metadata carries a string-valued
`code`** has its `collections` entry either absent or a list of strings (a
list-of-any is converted, any other value is removed); a result without a
string `code` is left untouched by the normalization, as the C8
counterexample shows. -/
theorem evaluate_collections_normalized (δ : Type) (t : Nat)
    (rules : PolicyRules) (cfg : Config) (rrs : List OutputCheckResult)
    (data : Option δ) (rep : List CheckResult)
    (hrep : (evaluate t rules cfg rrs data).report = some rep)
    (cr : CheckResult) (hcr : cr ∈ rep) (r : Result)
    (hr : r ∈ cr.failures ∨ r ∈ cr.warnings ∨ r ∈ cr.successes
      ∨ r ∈ cr.skipped ∨ r ∈ cr.exceptions)
    (c : String) (hc : mdLookup r.metadata "code" = some (Value.str c)) :
    mdLookup r.metadata "collections" = none
    ∨ ∃ l, mdLookup r.metadata "collections" = some (Value.listStr l) := by
  by_cases hempty : rrs.all checkResultEmpty = true
  · simp [evaluate, hempty] at hrep
  · unfold evaluate at hrep
    rw [if_neg hempty] at hrep
    have hrep2 : trim (rrs.map
        (processCheckResult t rules (effectiveInclude cfg) cfg.excludeList))
        = rep := Option.some.inj hrep
    subst hrep2
    simp only [trim] at hcr
    obtain ⟨cr0, hcr0, hcreq⟩ := List.mem_map.mp hcr
    obtain ⟨rr, hrrm, hcr0eq⟩ := List.mem_map.mp hcr0
    subst hcr0eq
    subst hcreq
    set pcr := processCheckResult t rules (effectiveInclude cfg)
      cfg.excludeList rr with hpcr
    have hmem : r ∈ pcr.failures ∨ r ∈ pcr.warnings ∨ r ∈ pcr.successes
        ∨ r ∈ pcr.skipped ∨ r ∈ pcr.exceptions := by
      rcases hr with h | h | h | h | h
      · exact Or.inl (trimOne_mem_failures _ _ h)
      · exact Or.inr (Or.inl (trimOne_mem_warnings _ _ h))
      · exact Or.inr (Or.inr (Or.inl (trimOne_mem_successes _ _ h)))
      · exact Or.inr (Or.inr (Or.inr (Or.inl h)))
      · exact Or.inr (Or.inr (Or.inr (Or.inr h)))
    obtain ⟨r0, hre⟩ := processCheckResult_mem t rules
      (effectiveInclude cfg) cfg.excludeList rr r (by rw [hpcr] at hmem; exact hmem)
    subst hre
    rw [addRuleMetadata_code] at hc
    exact addRuleMetadata_collections_shape t rules r0 c hc

/-- C8 amended witness: the normalized `breakfast.spam` failure of the
"ignore unexpected collection type" run satisfies the invariant. -/
theorem evaluate_collections_normalized_witness :
    mdLookup [("collections", Value.listStr ["foo"]),
        ("code", Value.str "breakfast.spam")] "collections" = none
    ∨ ∃ l, mdLookup [("collections", Value.listStr ["foo"]),
        ("code", Value.str "breakfast.spam")] "collections"
        = some (Value.listStr l) :=
  evaluate_collections_normalized Nat sampleEffectiveTime [] {}
    collectionTypesInput none collectionTypesExpected (by decide)
    { failures := [⟨"", [("collections", Value.listStr ["foo"]),
          ("code", Value.str "breakfast.spam")]⟩,
        ⟨"", [("code", Value.str "lunch.spam")]⟩],
      warnings := [⟨"", [("collections", Value.listStr ["foo"]),
          ("code", Value.str "breakfast.ham")]⟩,
        ⟨"", [("code", Value.str "lunch.ham")]⟩],
      successes := [], skipped := [], exceptions := [] }
    (by decide)
    ⟨"", [("collections", Value.listStr ["foo"]),
      ("code", Value.str "breakfast.spam")]⟩
    (by decide) "breakfast.spam" (by decide)

end EC
